import Mathlib

/-!
Verification of the brass revision/commit manager
(`backends/brass/brass_version.cc`): the binary codec for revision files,
the directory scanner selecting the most recent revision file, and the
commit writer (`BrassVersion::write` / `create` / `read` /
`open_most_recent`).

Bytes are modelled as `Nat` (values < 256); machine integers
(`brass_block_t`, `brass_revision_number_t`, the 16-bit format version)
are modelled as `Nat` with explicit bounds where overflow matters.
-/

namespace Brass

/-- Modelled from the spec: `Brass::MAX_`, the table-count constant supplied
by the surrounding storage layer (its header is not part of this slice); the
brass backend stores six on-disk tables. -/
def MAX_TABLES : Nat := 6

/-- Modelled from the spec: `brass_block_t` is an unsigned 4-byte block
pointer (its typedef is not part of this slice); `static_cast<brass_block_t>(-1)`
is its maximum value, the "no root" sentinel. -/
def NO_ROOT : Nat := 2 ^ 32 - 1

/-- `BRASS_VERSION_MAGIC`, the 14 signature bytes
`"\x0f\x0dXapian Brass"`. -/
def MAGIC_BYTES : List Nat :=
  [0x0f, 0x0d, 0x58, 0x61, 0x70, 0x69, 0x61, 0x6e, 0x20, 0x42, 0x72, 0x61, 0x73, 0x73]

/-- `DATE_TO_VERSION(Y,M,D)`: `((((Y)-2010)*12+((M)-1))*31)+(D)-1`. -/
def DATE_TO_VERSION (y m d : Nat) : Nat := ((y - 2010) * 12 + (m - 1)) * 31 + (d - 1)

/-- `BRASS_FORMAT_VERSION = DATE_TO_VERSION(2010,2,23)`. -/
def BRASS_FORMAT_VERSION : Nat := DATE_TO_VERSION 2010 2 23

/-- `VERSION_TO_YEAR(V)`: `(V) / 31 / 12 + 2010`. -/
def VERSION_TO_YEAR (v : Nat) : Nat := v / 31 / 12 + 2010

/-- `VERSION_TO_MONTH(V)`: `(V) / 31 % 12 + 1`. -/
def VERSION_TO_MONTH (v : Nat) : Nat := v / 31 % 12 + 1

/-- `VERSION_TO_DAY(V)`: `(V) % 31 + 1`. -/
def VERSION_TO_DAY (v : Nat) : Nat := v % 31 + 1

/-- A version decoded to its calendar date and written in `YYYYMMDD` form as
a decimal numeral (the code formats it with `sprintf("%04d%02d%02d", ...)`;
month and day occupy exactly two decimal digits since month ≤ 12 and
day ≤ 31, and the year ≥ 2010 occupies exactly four). -/
def versionToDateNum (v : Nat) : Nat :=
  VERSION_TO_YEAR v * 10000 + VERSION_TO_MONTH v * 100 + VERSION_TO_DAY v

/-- Modelled from the spec: the packed variable-length unsigned-integer
encoder (`pack_uint` from `pack.h`, not part of this slice): each byte holds
seven value bits, least significant group first; the high bit of a byte is
set exactly when more bytes follow. -/
def pack_uint (n : Nat) : List Nat :=
  if n < 128 then [n] else (n % 128 + 128) :: pack_uint (n / 128)
decreasing_by
  exact Nat.div_lt_self (by omega) (by omega)

/-- Modelled from the spec: the matching variable-length decoder
(`unpack_uint`); fails when the stream ends while a continuation bit is
pending. Returns the value and the unconsumed remainder. -/
def unpack_uint : List Nat → Option (Nat × List Nat)
  | [] => none
  | b :: rest =>
    if b < 128 then some (b, rest)
    else
      match unpack_uint rest with
      | none => none
      | some (v, rest') => some (b - 128 + 128 * v, rest')

theorem pack_uint_ne_nil (n : Nat) : pack_uint n ≠ [] := by
  rw [pack_uint]
  split <;> simp

theorem unpack_uint_pack_uint (n : Nat) (rest : List Nat) :
    unpack_uint (pack_uint n ++ rest) = some (n, rest) := by
  induction n using Nat.strong_induction_on with
  | _ n ih =>
    rw [pack_uint]
    split
    · simp [unpack_uint, *]
    · rename_i h
      have hlt : n / 128 < n := Nat.div_lt_self (by omega) (by omega)
      simp only [List.cons_append, unpack_uint, List.append_eq, ih (n / 128) hlt]
      have h2 : ¬ (n % 128 + 128 < 128) := by omega
      simp only [if_neg h2, Option.some.injEq, Prod.mk.injEq, and_true]
      omega

theorem pack_uint_length_le (k n : Nat) (hk : 1 ≤ k) (h : n < 128 ^ k) :
    (pack_uint n).length ≤ k := by
  induction k generalizing n with
  | zero => omega
  | succ k ih =>
    rw [pack_uint]
    split
    · simp
    · rename_i hn
      have hk1 : 1 ≤ k := by
        by_contra hk0
        have : k = 0 := by omega
        subst this
        simp [pow_succ] at h
        omega
      have hd : n / 128 < 128 ^ k := by
        rw [Nat.div_lt_iff_lt_mul (by norm_num : (0:Nat) < 128)]
        calc n < 128 ^ (k + 1) := h
        _ = 128 ^ k * 128 := by ring
      simpa using ih (n / 128) hk1 hd

/-- The errors thrown by this component.  `openingError` is
`Xapian::DatabaseOpeningError` (message, OS error code); `corruptError` is
`Xapian::DatabaseCorruptError`; `versionError` is
`Xapian::DatabaseVersionError`, modelled as carrying the two decoded dates
(file's and expected, as `YYYYMMDD` numerals) that the code formats into its
message; `databaseError` is the generic `Xapian::DatabaseError`. -/
inductive BrassError where
  | openingError (msg : String) (osError : Nat)
  | corruptError (msg : String)
  | versionError (fileDate expectedDate : Nat)
  | databaseError (msg : String) (osError : Nat)
  deriving DecidableEq

/-- Whether an error is the opening error of the spec's taxonomy. -/
def BrassError.isOpeningError : BrassError → Bool
  | .openingError _ _ => true
  | _ => false

/-- The serialization of a root list: `pack_uint` of each entry in order
(the loop `for table_no in [0, table_last): pack_uint(s, new_root[table_no])`). -/
def packList : List Nat → List Nat
  | [] => []
  | r :: rs => pack_uint r ++ packList rs

/-- The trimming loop of `BrassVersion::write`: `table_last` starts at
`MAX_` and decreases past every trailing `NO_ROOT`; only roots below
`table_last` are emitted.  Equivalently: drop the trailing run of `NO_ROOT`
entries. -/
def trimRoots (roots : List Nat) : List Nat :=
  (roots.reverse.dropWhile (fun r => r == NO_ROOT)).reverse

/-- The byte string `s` built by `BrassVersion::write`: magic, the two
big-endian format-version bytes, the 16 raw UUID bytes, then the packed
roots up to the last non-`NO_ROOT` table. -/
def encodeVersionFile (uuid roots : List Nat) : List Nat :=
  MAGIC_BYTES ++ [BRASS_FORMAT_VERSION / 256 % 256, BRASS_FORMAT_VERSION % 256] ++
    uuid ++ packList (trimRoots roots)

/-- The root-decoding loop of `BrassVersion::read`: for each of `k` tables,
if the stream is not exhausted decode one `unpack_uint` value (failing means
a corrupt root), otherwise the root is `NO_ROOT`.  Returns the decoded roots
and the unconsumed remainder. -/
def decodeRoots : Nat → List Nat → Option (List Nat × List Nat)
  | 0, p => some ([], p)
  | k + 1, [] => some (List.replicate (k + 1) NO_ROOT, [])
  | k + 1, b :: rest =>
    match unpack_uint (b :: rest) with
    | none => none
    | some (r, p') =>
      match decodeRoots k p' with
      | none => none
      | some (rs, p'') => some (r :: rs, p'')

/-- `BrassVersion::read` after the file is opened, as a function of the
file's byte contents: the code reads at most 256 bytes (`char buf[256]`)
requiring at least 32 (`brass_io_read(fd, buf, sizeof(buf), 32)`; modelled
from the spec: a file shorter than the fixed 32-byte header fails with
`CorruptError`), checks the magic, checks the big-endian 16-bit version,
copies the 16 UUID bytes, decodes the roots, and rejects leftover bytes.
Returns the UUID bytes and the `MAX_TABLES` roots. -/
def readVersionFile (contents : List Nat) : Except BrassError (List Nat × List Nat) :=
  let pre := contents.take 256
  if pre.length < 32 then
    .error (.corruptError "Rev file shorter than fixed header")
  else if pre.take 14 ≠ MAGIC_BYTES then
    .error (.corruptError "Rev file magic incorrect")
  else
    let version := pre.getD 14 0 * 256 + pre.getD 15 0
    if version ≠ BRASS_FORMAT_VERSION then
      .error (.versionError (versionToDateNum version)
        (versionToDateNum BRASS_FORMAT_VERSION))
    else
      match decodeRoots MAX_TABLES (pre.drop 32) with
      | none => .error (.corruptError "Rev file roots")
      | some (rs, leftover) =>
        if leftover ≠ [] then .error (.corruptError "Rev file has junk at end")
        else .ok ((pre.drop 16).take 16, rs)

theorem decodeRoots_nil (k : Nat) :
    decodeRoots k [] = some (List.replicate k NO_ROOT, []) := by
  cases k <;> rfl

theorem decodeRoots_packList (rs : List Nat) (k : Nat) (hk : rs.length ≤ k) :
    decodeRoots k (packList rs) =
      some (rs ++ List.replicate (k - rs.length) NO_ROOT, []) := by
  induction rs generalizing k with
  | nil => simpa using decodeRoots_nil k
  | cons r rs ih =>
    obtain ⟨k, rfl⟩ : ∃ k', k = k' + 1 := by
      cases k
      · simp at hk
      · exact ⟨_, rfl⟩
    obtain ⟨c, t, hct⟩ := List.exists_cons_of_ne_nil (pack_uint_ne_nil r)
    have hun : unpack_uint (c :: (t ++ packList rs)) = some (r, packList rs) := by
      rw [← List.cons_append, ← hct]
      exact unpack_uint_pack_uint r (packList rs)
    have hrw : packList (r :: rs) = c :: (t ++ packList rs) := by
      simp [packList, hct]
    rw [hrw]
    simp only [decodeRoots]
    rw [hun]
    simp only [ih k (by simpa using hk)]
    simp

/-- Dropping the trailing `NO_ROOT` run and padding back with `NO_ROOT`
reconstructs the original root list. -/
theorem trimRoots_append_replicate (roots : List Nat) :
    trimRoots roots ++
      List.replicate (roots.length - (trimRoots roots).length) NO_ROOT = roots := by
  have hsplit := List.takeWhile_append_dropWhile
    (p := fun r => r == NO_ROOT) (l := roots.reverse)
  have htake : roots.reverse.takeWhile (fun r => r == NO_ROOT) =
      List.replicate (roots.reverse.takeWhile (fun r => r == NO_ROOT)).length NO_ROOT := by
    rw [List.eq_replicate_iff]
    refine ⟨rfl, fun b hb => ?_⟩
    have := List.mem_takeWhile_imp hb
    simpa using this
  have key : roots = trimRoots roots ++
      List.replicate (roots.reverse.takeWhile (fun r => r == NO_ROOT)).length NO_ROOT := by
    conv_lhs => rw [← List.reverse_reverse roots, ← hsplit]
    rw [List.reverse_append, trimRoots]
    congr 1
    conv_lhs => rw [htake]
    simp
  have hcount : (roots.reverse.takeWhile (fun r => r == NO_ROOT)).length =
      roots.length - (trimRoots roots).length := by
    have := congrArg List.length key
    simp only [List.length_append, List.length_replicate] at this
    omega
  rw [← hcount]
  exact key.symm

theorem trimRoots_length_le (roots : List Nat) :
    (trimRoots roots).length ≤ roots.length := by
  have h1 : (roots.reverse.dropWhile (fun r => r == NO_ROOT)).length ≤
      roots.reverse.length := (List.dropWhile_sublist _).length_le
  simpa [trimRoots] using h1

theorem trimRoots_mem {roots : List Nat} {r : Nat} (h : r ∈ trimRoots roots) :
    r ∈ roots := by
  rw [trimRoots, List.mem_reverse] at h
  have := (List.dropWhile_sublist (l := roots.reverse)
    (p := fun r => r == NO_ROOT)).mem h
  simpa using this

theorem packList_length_le (rs : List Nat) (h : ∀ r ∈ rs, r < 2 ^ 32) :
    (packList rs).length ≤ 5 * rs.length := by
  induction rs with
  | nil => simp [packList]
  | cons r rs ih =>
    have h1 : (pack_uint r).length ≤ 5 := by
      refine pack_uint_length_le 5 r (by norm_num) ?_
      calc r < 2 ^ 32 := h r (List.mem_cons_self r rs)
      _ ≤ 128 ^ 5 := by norm_num
    have h2 := ih (fun x hx => h x (List.mem_cons_of_mem r hx))
    simp only [packList, List.length_append, List.length_cons]
    omega

/-- Parsing a byte string with correct magic, correct version bytes and a
16-byte UUID reduces to the root-decoding loop on the payload. -/
theorem readVersionFile_wellformed (u payload : List Nat) (hu : u.length = 16)
    (hp : payload.length ≤ 224) :
    readVersionFile (MAGIC_BYTES ++ [0, 53] ++ u ++ payload) =
      match decodeRoots MAX_TABLES payload with
      | none => .error (.corruptError "Rev file roots")
      | some (rs, leftover) =>
        if leftover ≠ [] then .error (.corruptError "Rev file has junk at end")
        else .ok (u, rs) := by
  have hmlen : MAGIC_BYTES.length = 14 := by decide
  have hElen : (MAGIC_BYTES ++ ([0, 53] ++ (u ++ payload))).length = 32 + payload.length := by
    simp [hmlen, hu]
    omega
  have hpre : (MAGIC_BYTES ++ ([0, 53] ++ (u ++ payload))).take 256 =
      MAGIC_BYTES ++ ([0, 53] ++ (u ++ payload)) :=
    List.take_of_length_le (by omega)
  have htake14 : (MAGIC_BYTES ++ ([0, 53] ++ (u ++ payload))).take 14 = MAGIC_BYTES :=
    List.take_left' hmlen
  have hget14 : (MAGIC_BYTES ++ ([0, 53] ++ (u ++ payload))).getD 14 0 = 0 := by
    rw [List.getD_append_right _ _ _ _ (by omega), hmlen]
    simp
  have hget15 : (MAGIC_BYTES ++ ([0, 53] ++ (u ++ payload))).getD 15 0 = 53 := by
    rw [List.getD_append_right _ _ _ _ (by omega), hmlen]
    simp
  have hassoc16 : MAGIC_BYTES ++ ([0, 53] ++ (u ++ payload)) =
      (MAGIC_BYTES ++ [0, 53]) ++ (u ++ payload) := by
    simp [List.append_assoc]
  have hdrop16 : (MAGIC_BYTES ++ ([0, 53] ++ (u ++ payload))).drop 16 = u ++ payload := by
    rw [hassoc16]
    exact List.drop_left' (by simp [hmlen])
  have hdrop32 : (MAGIC_BYTES ++ ([0, 53] ++ (u ++ payload))).drop 32 = payload := by
    have hassoc32 : MAGIC_BYTES ++ ([0, 53] ++ (u ++ payload)) =
        ((MAGIC_BYTES ++ [0, 53]) ++ u) ++ payload := by
      simp [List.append_assoc]
    rw [hassoc32]
    exact List.drop_left' (by simp [hmlen, hu])
  show readVersionFile (MAGIC_BYTES ++ ([0, 53] ++ (u ++ payload))) = _
  rw [readVersionFile]
  simp only [hpre, hElen, htake14, hget14, hget15, hdrop16, hdrop32]
  have hver : (0 : Nat) * 256 + 53 = BRASS_FORMAT_VERSION := by decide
  simp only [hver]
  have h32 : ¬ (32 + payload.length < 32) := by omega
  simp only [if_neg h32, ne_eq, not_true_eq_false, if_neg, ite_false, if_pos,
    not_false_eq_true, ite_true]
  simp [List.take_left' hu]

/-- C1. Codec round-trip: for every 16-byte UUID and every assignment of
`MAX_TABLES` table roots (any mix of `NO_ROOT` and other representable
values), decoding (`BrassVersion::read`'s parsing) the byte string produced
by the encoder (`BrassVersion::write`'s header + trimmed root list)
reproduces the UUID and every root: for indices up to the highest
non-sentinel index the original value, and `NO_ROOT` above it — i.e. the
decoded root list equals the original assignment. -/
theorem codec_round_trip (uuid roots : List Nat) (hu : uuid.length = 16)
    (hr : roots.length = MAX_TABLES) (hb : ∀ r ∈ roots, r < 2 ^ 32) :
    readVersionFile (encodeVersionFile uuid roots) = .ok (uuid, roots) := by
  have henc : encodeVersionFile uuid roots =
      MAGIC_BYTES ++ [0, 53] ++ uuid ++ packList (trimRoots roots) := by
    have h1 : BRASS_FORMAT_VERSION / 256 % 256 = 0 := by decide
    have h2 : BRASS_FORMAT_VERSION % 256 = 53 := by decide
    rw [encodeVersionFile, h1, h2]
  have htl : (trimRoots roots).length ≤ MAX_TABLES := hr ▸ trimRoots_length_le roots
  have hpl : (packList (trimRoots roots)).length ≤ 224 := by
    have := packList_length_le (trimRoots roots) (fun r hm => hb r (trimRoots_mem hm))
    have : (trimRoots roots).length ≤ 6 := by
      simpa [MAX_TABLES] using htl
    have h5 := packList_length_le (trimRoots roots) (fun r hm => hb r (trimRoots_mem hm))
    omega
  rw [henc, readVersionFile_wellformed uuid _ hu hpl,
    decodeRoots_packList (trimRoots roots) MAX_TABLES htl]
  have hfill : trimRoots roots ++
      List.replicate (MAX_TABLES - (trimRoots roots).length) NO_ROOT = roots := by
    rw [← hr]
    exact trimRoots_append_replicate roots
  simp [hfill]

/-- Witness for C1: the round-trip at a concrete UUID and a concrete root
assignment (roots `[42, NO_ROOT, 7, NO_ROOT, NO_ROOT, NO_ROOT]`, highest
non-sentinel index 2). -/
theorem codec_round_trip_witness :
    readVersionFile (encodeVersionFile
        [0, 1, 2, 3, 4, 5, 6, 7, 8, 9, 10, 11, 12, 13, 14, 15]
        [42, NO_ROOT, 7, NO_ROOT, NO_ROOT, NO_ROOT]) =
      .ok ([0, 1, 2, 3, 4, 5, 6, 7, 8, 9, 10, 11, 12, 13, 14, 15],
        [42, NO_ROOT, 7, NO_ROOT, NO_ROOT, NO_ROOT]) :=
  codec_round_trip _ _ (by decide) (by decide) (by decide)

/-- `C_islcxdigit` from `stringutils.h` (modelled from the spec: a lowercase
hexadecimal digit, `0`–`9` or `a`–`f`). -/
def C_islcxdigit (c : Char) : Bool :=
  (48 ≤ c.toNat && c.toNat ≤ 57) || (97 ≤ c.toNat && c.toNat ≤ 102)

/-- The per-entry filter of `BrassVersion::open_most_recent`: reject unless
`name[0] == 'v'`; then the scan
`while (*p && p != name + 9 && C_islcxdigit(*p)) ++p;` followed by
`if (*p || p != name + 9) continue;` accepts exactly the names that are `v`
followed by eight lowercase hex digits and the terminating NUL. -/
def validRevName (name : List Char) : Bool :=
  match name with
  | [] => false
  | c :: rest => c == 'v' && rest.length == 8 && rest.all C_islcxdigit

/-- The acceptance condition as the spec words it: exactly `v` followed by
8 lowercase hexadecimal digits. -/
def specRevName (name : List Char) : Prop :=
  ∃ ds, name = 'v' :: ds ∧ ds.length = 8 ∧ ∀ c ∈ ds, C_islcxdigit c = true

/-- `memcmp(a.data(), b.data(), 8) < 0` on equal-length byte strings:
strict lexicographic comparison. -/
def memcmpLt : List Char → List Char → Bool
  | [], [] => false
  | [], _ :: _ => true
  | _ :: _, [] => false
  | a :: as, b :: bs =>
    if a.toNat < b.toNat then true
    else if b.toNat < a.toNat then false
    else memcmpLt as bs

/-- One iteration of the selection loop:
`if (newest.empty() || memcmp(newest.data(), name + 1, 8) < 0)
newest.assign(name + 1, 8);` guarded by the name filter. -/
def scanStep (newest : Option (List Char)) (name : List Char) : Option (List Char) :=
  if validRevName name then
    match newest with
    | none => some (name.drop 1)
    | some cur => if memcmpLt cur (name.drop 1) then some (name.drop 1) else some cur
  else newest

/-- The whole selection loop of `open_most_recent` over the directory
entries, yielding the 8-character suffix of the newest revision file name
(or `none` when no entry passes the filter). -/
def scanNewest (entries : List (List Char)) : Option (List Char) :=
  entries.foldl scanStep none

/-- The digit value `strtoul(..., 16)` assigns to a lowercase hex digit. -/
def hexDigitVal (c : Char) : Nat :=
  if c.toNat ≤ 57 then c.toNat - 48 else c.toNat - 87

/-- `strtoul(newest.c_str(), NULL, 16)` on an all-hex-digit string. -/
def hexVal (s : List Char) : Nat :=
  s.foldl (fun a c => 16 * a + hexDigitVal c) 0

/-- The outcome of the directory listing consumed by `open_most_recent`:
`opendir` failure carrying its `errno`, or the entries yielded by `readdir`
followed by the `errno` observed when `readdir` finally returns null
(`0` is the normal end of the listing). -/
inductive DirListing where
  | openFail (osError : Nat)
  | ended (entries : List (List Char)) (finalErrno : Nat)

/-- The result of `BrassVersion::open_most_recent` up to its call to `read`:
on an empty database it assigns `rev = 0` and `NO_ROOT` to all committed
roots (the values are recorded in the constructor) and returns without
reading any file; otherwise it assigns `rev = strtoul(newest, NULL, 16)`
and invokes `read` on `db_dir + "/v" + newest`. -/
inductive ScanOutcome where
  | emptyDb (rev : Nat) (root : List Nat)
  | readInvoked (rev : Nat) (suffix : List Char)
  deriving DecidableEq

/-- `BrassVersion::open_most_recent` as a function of the directory-listing
outcome. -/
def open_most_recent (listing : DirListing) : Except BrassError ScanOutcome :=
  match listing with
  | .openFail e => .error (.openingError "Couldn't open directory" e)
  | .ended entries finalErrno =>
    if finalErrno ≠ 0 then
      .error (.databaseError "Couldn't read from directory" finalErrno)
    else
      match scanNewest entries with
      | none => .ok (.emptyDb 0 (List.replicate MAX_TABLES NO_ROOT))
      | some s => .ok (.readInvoked (hexVal s) s)

theorem validRevName_iff (name : List Char) :
    validRevName name = true ↔ specRevName name := by
  cases name with
  | nil =>
    simp only [validRevName, specRevName]
    constructor
    · intro h
      exact absurd h (by simp)
    · rintro ⟨ds, h, -⟩
      exact absurd h (by simp)
  | cons c rest =>
    simp only [validRevName, specRevName, Bool.and_eq_true, beq_iff_eq,
      List.all_eq_true]
    constructor
    · rintro ⟨⟨rfl, hlen⟩, hall⟩
      exact ⟨rest, rfl, hlen, hall⟩
    · rintro ⟨ds, heq, hlen, hall⟩
      obtain ⟨rfl, rfl⟩ : c = 'v' ∧ rest = ds := by
        injection heq with h1 h2
        exact ⟨h1, h2⟩
      exact ⟨⟨rfl, hlen⟩, hall⟩

theorem validRevName_suffix {name : List Char} (h : validRevName name = true) :
    (name.drop 1).length = 8 ∧ (name.drop 1).all C_islcxdigit = true := by
  rw [validRevName_iff] at h
  obtain ⟨ds, rfl, hlen, hall⟩ := h
  refine ⟨by simp [hlen], ?_⟩
  rw [List.all_eq_true]
  simpa using hall

theorem hexDigitVal_lt_16 {c : Char} (hc : C_islcxdigit c = true) :
    hexDigitVal c < 16 := by
  simp only [C_islcxdigit, Bool.or_eq_true, Bool.and_eq_true,
    decide_eq_true_eq] at hc
  rw [hexDigitVal]
  split <;> omega

theorem hexDigitVal_lt_iff {c d : Char} (hc : C_islcxdigit c = true)
    (hd : C_islcxdigit d = true) :
    hexDigitVal c < hexDigitVal d ↔ c.toNat < d.toNat := by
  simp only [C_islcxdigit, Bool.or_eq_true, Bool.and_eq_true,
    decide_eq_true_eq] at hc hd
  rw [hexDigitVal, hexDigitVal]
  split <;> split <;> omega

theorem hexDigitVal_congr {c d : Char} (h : c.toNat = d.toNat) :
    hexDigitVal c = hexDigitVal d := by
  simp [hexDigitVal, h]

theorem hexVal_foldl (s : List Char) (a : Nat) :
    List.foldl (fun x c => 16 * x + hexDigitVal c) a s =
      a * 16 ^ s.length + List.foldl (fun x c => 16 * x + hexDigitVal c) 0 s := by
  induction s generalizing a with
  | nil => simp
  | cons c s ih =>
    simp only [List.foldl_cons, List.length_cons]
    rw [ih (16 * a + hexDigitVal c), ih (16 * 0 + hexDigitVal c)]
    ring

theorem hexVal_cons (c : Char) (s : List Char) :
    hexVal (c :: s) = hexDigitVal c * 16 ^ s.length + hexVal s := by
  simp only [hexVal, List.foldl_cons]
  rw [hexVal_foldl s (16 * 0 + hexDigitVal c)]
  ring_nf

theorem hexVal_lt (s : List Char) (hs : s.all C_islcxdigit = true) :
    hexVal s < 16 ^ s.length := by
  induction s with
  | nil => simp [hexVal]
  | cons c s ih =>
    simp only [List.all_cons, Bool.and_eq_true] at hs
    have h1 := hexDigitVal_lt_16 hs.1
    have h2 := ih hs.2
    have h3 : hexDigitVal c * 16 ^ s.length ≤ 15 * 16 ^ s.length :=
      Nat.mul_le_mul_right _ (by omega)
    have h4 : (16:Nat) ^ (s.length + 1) = 16 * 16 ^ s.length := by ring
    rw [hexVal_cons, List.length_cons, h4]
    omega

theorem memcmpLt_iff {s t : List Char} (hlen : s.length = t.length)
    (hs : s.all C_islcxdigit = true) (ht : t.all C_islcxdigit = true) :
    memcmpLt s t = true ↔ hexVal s < hexVal t := by
  induction s generalizing t with
  | nil =>
    cases t with
    | nil => simp [memcmpLt]
    | cons b bs => simp at hlen
  | cons a as ih =>
    cases t with
    | nil => simp at hlen
    | cons b bs =>
      simp only [List.length_cons] at hlen
      have hlen' : as.length = bs.length := by omega
      simp only [List.all_cons, Bool.and_eq_true] at hs ht
      have hKas : hexVal as < 16 ^ bs.length := hlen' ▸ hexVal_lt as hs.2
      have hKbs : hexVal bs < 16 ^ bs.length := hexVal_lt bs ht.2
      rw [hexVal_cons, hexVal_cons, hlen', memcmpLt]
      by_cases h1 : a.toNat < b.toNat
      · have hd : hexDigitVal a < hexDigitVal b := (hexDigitVal_lt_iff hs.1 ht.1).2 h1
        have hkey : hexDigitVal a * 16 ^ bs.length + hexVal as <
            hexDigitVal b * 16 ^ bs.length := by
          calc hexDigitVal a * 16 ^ bs.length + hexVal as
              < hexDigitVal a * 16 ^ bs.length + 16 ^ bs.length := by omega
          _ = (hexDigitVal a + 1) * 16 ^ bs.length := by ring
          _ ≤ hexDigitVal b * 16 ^ bs.length := Nat.mul_le_mul_right _ (by omega)
        rw [if_pos h1]
        exact iff_of_true rfl (by omega)
      · by_cases h2 : b.toNat < a.toNat
        · have hd : hexDigitVal b < hexDigitVal a := (hexDigitVal_lt_iff ht.1 hs.1).2 h2
          have hkey : hexDigitVal b * 16 ^ bs.length + hexVal bs <
              hexDigitVal a * 16 ^ bs.length := by
            calc hexDigitVal b * 16 ^ bs.length + hexVal bs
                < hexDigitVal b * 16 ^ bs.length + 16 ^ bs.length := by omega
            _ = (hexDigitVal b + 1) * 16 ^ bs.length := by ring
            _ ≤ hexDigitVal a * 16 ^ bs.length := Nat.mul_le_mul_right _ (by omega)
          rw [if_neg h1, if_pos h2]
          exact iff_of_false (by simp) (by omega)
        · have hdeq : hexDigitVal a = hexDigitVal b := hexDigitVal_congr (by omega)
          rw [if_neg h1, if_neg h2, ih hlen' hs.2 ht.2, hdeq]
          constructor <;> (intro hh; omega)

/-- Invariant of the selection loop: a `none` accumulator means no valid
name has been seen; a `some` accumulator is the 8-hex-digit suffix of a
seen valid name whose numeric value dominates every seen valid name. -/
def ScanInv (seen : List (List Char)) (acc : Option (List Char)) : Prop :=
  (acc = none → ∀ n ∈ seen, validRevName n = false) ∧
  (∀ s, acc = some s →
    s.length = 8 ∧ s.all C_islcxdigit = true ∧
    (∃ n ∈ seen, validRevName n = true ∧ n.drop 1 = s) ∧
    (∀ n ∈ seen, validRevName n = true → hexVal (n.drop 1) ≤ hexVal s))

theorem scanStep_none_valid {n : List Char} (hv : validRevName n = true) :
    scanStep none n = some (n.drop 1) := by
  simp [scanStep, hv]

theorem scanStep_some_lt {n cur : List Char} (hv : validRevName n = true)
    (hlt : memcmpLt cur (n.drop 1) = true) :
    scanStep (some cur) n = some (n.drop 1) := by
  rw [List.drop_one] at hlt
  simp [scanStep, hv, hlt]

theorem scanStep_some_ge {n cur : List Char} (hv : validRevName n = true)
    (hlt : memcmpLt cur (n.drop 1) = false) :
    scanStep (some cur) n = some cur := by
  rw [List.drop_one] at hlt
  simp [scanStep, hv, hlt]

theorem scanStep_invalid {acc : Option (List Char)} {n : List Char}
    (hv : validRevName n = false) : scanStep acc n = acc := by
  simp [scanStep, hv]

theorem scanStep_inv {seen : List (List Char)} {acc : Option (List Char)}
    (hinv : ScanInv seen acc) (n : List Char) :
    ScanInv (seen ++ [n]) (scanStep acc n) := by
  obtain ⟨hnone, hsome⟩ := hinv
  by_cases hv : validRevName n = true
  · obtain ⟨hslen, hsall⟩ := validRevName_suffix hv
    cases acc with
    | none =>
      rw [scanStep_none_valid hv]
      refine ⟨fun h => by exact absurd h (by simp), fun s hs => ?_⟩
      obtain rfl : n.drop 1 = s := by injection hs
      refine ⟨hslen, hsall, ⟨n, by simp, hv, rfl⟩, fun m hm hvm => ?_⟩
      rcases List.mem_append.1 hm with hm | hm
      · exact absurd hvm (by simp [hnone rfl m hm])
      · obtain rfl : m = n := by simpa using hm
        exact le_refl _
    | some cur =>
      obtain ⟨hclen, hcall, hcex, hcmax⟩ := hsome cur rfl
      by_cases hlt : memcmpLt cur (n.drop 1) = true
      · have hnum : hexVal cur < hexVal (n.drop 1) :=
          (memcmpLt_iff (by omega) hcall hsall).1 hlt
        rw [scanStep_some_lt hv hlt]
        refine ⟨fun h => by exact absurd h (by simp), fun s hs => ?_⟩
        obtain rfl : n.drop 1 = s := by injection hs
        refine ⟨hslen, hsall, ⟨n, by simp, hv, rfl⟩, fun m hm hvm => ?_⟩
        rcases List.mem_append.1 hm with hm | hm
        · have := hcmax m hm hvm
          omega
        · obtain rfl : m = n := by simpa using hm
          exact le_refl _
      · have hlt' : memcmpLt cur (n.drop 1) = false := by
          simpa using hlt
        have hnum : hexVal (n.drop 1) ≤ hexVal cur := by
          have hiff := memcmpLt_iff
            (show cur.length = (n.drop 1).length by omega) hcall hsall
          rw [hlt'] at hiff
          have hnot : ¬ hexVal cur < hexVal (n.drop 1) := fun hc => by
            simpa using hiff.2 hc
          omega
        rw [scanStep_some_ge hv hlt']
        refine ⟨fun h => by exact absurd h (by simp), fun s hs => ?_⟩
        obtain rfl : cur = s := by injection hs
        obtain ⟨m0, hm0, hvm0, hm0s⟩ := hcex
        refine ⟨hclen, hcall, ⟨m0, by simp [hm0], hvm0, hm0s⟩, fun m hm hvm => ?_⟩
        rcases List.mem_append.1 hm with hm | hm
        · exact hcmax m hm hvm
        · obtain rfl : m = n := by simpa using hm
          exact hnum
  · have hv' : validRevName n = false := by simpa using hv
    rw [scanStep_invalid hv']
    refine ⟨fun h m hm => ?_, fun s hs => ?_⟩
    · rcases List.mem_append.1 hm with hm | hm
      · exact hnone h m hm
      · obtain rfl : m = n := by simpa using hm
        exact hv'
    · obtain ⟨hclen, hcall, hcex, hcmax⟩ := hsome s hs
      obtain ⟨m0, hm0, hvm0, hm0s⟩ := hcex
      refine ⟨hclen, hcall, ⟨m0, by simp [hm0], hvm0, hm0s⟩, fun m hm hvm => ?_⟩
      rcases List.mem_append.1 hm with hm | hm
      · exact hcmax m hm hvm
      · obtain rfl : m = n := by simpa using hm
        exact absurd hvm (by simp [hv'])

theorem scanFold_inv (rest : List (List Char)) :
    ∀ (seen : List (List Char)) (acc : Option (List Char)), ScanInv seen acc →
      ScanInv (seen ++ rest) (rest.foldl scanStep acc) := by
  induction rest with
  | nil => intro seen acc h; simpa using h
  | cons n rest ih =>
    intro seen acc h
    have h1 := scanStep_inv h n
    have h2 := ih (seen ++ [n]) (scanStep acc n) h1
    simpa using h2

theorem scanNewest_inv (entries : List (List Char)) :
    ScanInv entries (scanNewest entries) := by
  have h := scanFold_inv entries [] none ⟨fun _ _ h => by simp at h, fun s h => by simp at h⟩
  simpa [scanNewest] using h

theorem scanNewest_eq_none {entries : List (List Char)}
    (h : ∀ n ∈ entries, validRevName n = false) : scanNewest entries = none := by
  cases hs : scanNewest entries with
  | none => rfl
  | some s =>
    obtain ⟨-, -, ⟨n, hn, hvn, -⟩, -⟩ := (scanNewest_inv entries).2 s hs
    rw [h n hn] at hvn
    exact absurd hvn (by simp)

/-- C2. Directory scanner selection: `open_most_recent` accepts a directory
entry as a revision file exactly when its name is `v` followed by 8
lowercase hexadecimal digits; among accepted names it selects the one with
the lexicographically (equivalently numerically) greatest 8-digit suffix
and invokes `read` on that file with the suffix parsed as the revision; if
no entry matches it sets the revision to 0 and every table root to
`NO_ROOT` without reading any file. -/
theorem open_most_recent_selection (entries : List (List Char)) :
    (∀ name, validRevName name = true ↔ specRevName name) ∧
    ((∀ n ∈ entries, validRevName n = false) →
      open_most_recent (.ended entries 0) =
        .ok (.emptyDb 0 (List.replicate MAX_TABLES NO_ROOT))) ∧
    (∀ s, scanNewest entries = some s →
      (∃ n ∈ entries, validRevName n = true ∧ n.drop 1 = s) ∧
      (∀ n ∈ entries, validRevName n = true →
        memcmpLt s (n.drop 1) = false ∧ hexVal (n.drop 1) ≤ hexVal s) ∧
      open_most_recent (.ended entries 0) = .ok (.readInvoked (hexVal s) s)) := by
  refine ⟨validRevName_iff, fun hall => ?_, fun s hs => ?_⟩
  · simp [open_most_recent, scanNewest_eq_none hall]
  · obtain ⟨hslen, hsall, hex, hmax⟩ := (scanNewest_inv entries).2 s hs
    refine ⟨hex, fun n hn hvn => ?_, by simp [open_most_recent, hs]⟩
    have hle := hmax n hn hvn
    obtain ⟨hnlen, hnall⟩ := validRevName_suffix hvn
    have hiff := memcmpLt_iff
      (show s.length = (n.drop 1).length by omega) hsall hnall
    refine ⟨?_, hle⟩
    cases hmc : memcmpLt s (n.drop 1) with
    | false => rfl
    | true =>
      have := hiff.1 hmc
      omega

/-- Witness for C2: on the spec's example listing
(`v00000001`, `v0000000a`, `vXXXXXXXX`, `v1234567`, `v123456789`, plus an
unrelated name) the scanner selects `v0000000a`, parses its suffix to
revision 10, and reads that file. -/
theorem open_most_recent_selection_witness :
    open_most_recent (.ended
      ["v00000001".toList, "v0000000a".toList, "vXXXXXXXX".toList,
        "v1234567".toList, "v123456789".toList, "flintlock".toList] 0) =
      .ok (.readInvoked 10 "0000000a".toList) ∧
    hexVal "0000000a".toList = 10 := by
  have h := (open_most_recent_selection
    ["v00000001".toList, "v0000000a".toList, "vXXXXXXXX".toList,
      "v1234567".toList, "v123456789".toList, "flintlock".toList]).2.2
    "0000000a".toList (by decide)
  have h10 : hexVal "0000000a".toList = 10 := by decide
  refine ⟨?_, h10⟩
  rw [h.2.2, h10]

/-- Counterexample to C8 as stated: a `readdir` failure (here `errno = 5`)
throws the generic `Xapian::DatabaseError`, not the opening error — only
the `opendir` failure uses `DatabaseOpeningError`. -/
theorem listing_failure_not_opening_error :
    open_most_recent (.ended [] 5) =
      .error (.databaseError "Couldn't read from directory" 5) ∧
    (BrassError.databaseError "Couldn't read from directory" 5).isOpeningError
      = false := by
  constructor
  · simp [open_most_recent]
  · rfl

/-- C8 (amended). A failure to open the directory fails with an opening
error carrying the OS error code; a directory-listing failure (final
`errno` nonzero) fails with the generic database error carrying the OS
error code, which is not an opening error. -/
theorem open_most_recent_failures (e : Nat) (entries : List (List Char))
    (he : e ≠ 0) :
    open_most_recent (.openFail e) =
      .error (.openingError "Couldn't open directory" e) ∧
    open_most_recent (.ended entries e) =
      .error (.databaseError "Couldn't read from directory" e) ∧
    (BrassError.databaseError "Couldn't read from directory" e).isOpeningError
      = false := by
  refine ⟨rfl, ?_, rfl⟩
  simp [open_most_recent, he]

/-- Witness for C8 (amended) at `errno = 5` with an empty listing. -/
theorem open_most_recent_failures_witness :
    open_most_recent (.openFail 5) =
      .error (.openingError "Couldn't open directory" 5) ∧
    open_most_recent (.ended [] 5) =
      .error (.databaseError "Couldn't read from directory" 5) :=
  ⟨(open_most_recent_failures 5 [] (by decide)).1,
    (open_most_recent_failures 5 [] (by decide)).2.1⟩

/-- The in-memory state of a `BrassVersion` object: current committed
revision `rev`, committed roots `root`, staged roots `new_root`, and the
16 UUID bytes. -/
structure BrassState where
  rev : Nat
  root : List Nat
  new_root : List Nat
  uuid : List Nat
  deriving DecidableEq

/-- Outcomes of the OS calls `BrassVersion::write` makes (one success flag
and `errno` per call site), so every execution path can be exercised. -/
structure WriteEnv where
  openOk : Bool
  openErrno : Nat
  writeOk : Bool
  writeErrno : Nat
  syncOk : Bool
  syncErrno : Nat
  closeOk : Bool
  closeErrno : Nat
  renameOk : Bool
  renameErrno : Nat
  deriving DecidableEq

/-- The file-system operations `write` attempts, in program order. -/
inductive FsOp where
  | openTrunc (path : String)
  | writeData (bytes : List Nat)
  | syncFile
  | closeFile
  | unlinkFile (path : String)
  | renameFile (src dst : String)
  deriving DecidableEq

/-- Result of one call to `write`: the error thrown (if any), the object
state after the call (a C++ throw leaves the object as it was), and the
trace of attempted file-system operations. -/
structure WriteResult where
  err : Option BrassError
  state : BrassState
  trace : List FsOp
  deriving DecidableEq

/-- `sprintf(buf, "%08x", new_rev)`: lowercase hex, zero-padded to 8
digits. -/
def hex8 (v : Nat) : String :=
  let ds := Nat.toDigits 16 v
  String.mk (List.replicate (8 - ds.length) '0' ++ ds)

/-- The staging path `write` builds: `tmpfile = db_dir; tmpfile += "v.tmp";`
— note that no directory separator is inserted. -/
def tmpFilePath (db_dir : String) : String := db_dir ++ "v.tmp"

/-- The canonical path `write` builds:
`filename = db_dir; filename += "/v";` followed by the zero-padded
lowercase hex revision. -/
def revFilePath (db_dir : String) (v : Nat) : String :=
  db_dir ++ "/v" ++ hex8 v

/-- `BrassVersion::write(db_dir, new_rev)`: reject `new_rev < rev` before
any I/O; serialize the staged state; open/truncate the temp file, write the
buffer, sync, close, and rename to the canonical name — on a data-write
failure close the fd and rethrow (`catch (...) { close(fd); throw; }`,
with no unlink); on sync/close/rename failure unlink the temp file; on
full success commit `rev = new_rev` and copy the staged roots over the
committed roots.  The write-failure error is modelled from the spec
(any open/write failure is an opening error carrying the OS error code;
`brass_io_write` is not part of this slice). -/
def write (st : BrassState) (db_dir : String) (new_rev : Nat)
    (env : WriteEnv) : WriteResult :=
  if new_rev < st.rev then
    { err := some (.databaseError ("New revision " ++ toString new_rev ++
        " < old revision " ++ toString st.rev) 0),
      state := st, trace := [] }
  else
    let s := encodeVersionFile st.uuid st.new_root
    let tmpfile := tmpFilePath db_dir
    let filename := revFilePath db_dir new_rev
    if !env.openOk then
      { err := some (.openingError ("Couldn't write new rev file: " ++ tmpfile)
          env.openErrno),
        state := st, trace := [.openTrunc tmpfile] }
    else if !env.writeOk then
      { err := some (.openingError "Error writing to file" env.writeErrno),
        state := st,
        trace := [.openTrunc tmpfile, .writeData s, .closeFile] }
    else if !env.syncOk then
      { err := some (.openingError ("Failed to sync new rev file: " ++ tmpfile)
          env.syncErrno),
        state := st,
        trace := [.openTrunc tmpfile, .writeData s, .syncFile, .closeFile,
          .unlinkFile tmpfile] }
    else if !env.closeOk then
      { err := some (.openingError ("Failed to close new rev file: " ++ tmpfile)
          env.closeErrno),
        state := st,
        trace := [.openTrunc tmpfile, .writeData s, .syncFile, .closeFile,
          .unlinkFile tmpfile] }
    else if !env.renameOk then
      { err := some (.openingError ("Failed to rename new rev file: " ++ tmpfile)
          env.renameErrno),
        state := st,
        trace := [.openTrunc tmpfile, .writeData s, .syncFile, .closeFile,
          .renameFile tmpfile filename, .unlinkFile tmpfile] }
    else
      { err := none,
        state := { st with rev := new_rev, root := st.new_root },
        trace := [.openTrunc tmpfile, .writeData s, .syncFile, .closeFile,
          .renameFile tmpfile filename] }

/-- `BrassVersion::create(db_dir)`: generate a fresh UUID (injected here as
a parameter, matching the spec's note that creation calls a process-wide
UUID generator), set every staged root to `NO_ROOT`, then
`write(db_dir, rev)` at the current revision. -/
def create (st : BrassState) (freshUuid : List Nat) (db_dir : String)
    (env : WriteEnv) : WriteResult :=
  let st1 := { st with
    uuid := freshUuid,
    new_root := List.replicate MAX_TABLES NO_ROOT }
  write st1 db_dir st1.rev env

/-- Modelled from the spec: a freshly constructed `BrassVersion` (the
constructor lives in `brass_version.h`, which is not part of this slice)
has current revision 0; the remaining fields are immaterial to `create`,
which overwrites them. -/
def initialState : BrassState :=
  { rev := 0, root := List.replicate MAX_TABLES NO_ROOT,
    new_root := List.replicate MAX_TABLES NO_ROOT,
    uuid := List.replicate 16 0 }

/-- An environment in which every OS call succeeds. -/
def allOkEnv : WriteEnv :=
  { openOk := true, openErrno := 0, writeOk := true, writeErrno := 0,
    syncOk := true, syncErrno := 0, closeOk := true, closeErrno := 0,
    renameOk := true, renameErrno := 0 }

/-- Counterexample to C3 as stated ("fails for every `r2 ≤ r`"): with
current revision 1, `write(dir, 1)` — i.e. `r2 = r` — succeeds, commits,
and publishes the canonical file `db/v00000001`; only `r2 < r` is
rejected (the check is `new_rev < rev`). -/
theorem write_equal_revision_succeeds :
    (write { rev := 1, root := List.replicate MAX_TABLES NO_ROOT,
             new_root := List.replicate MAX_TABLES NO_ROOT,
             uuid := List.replicate 16 0 } "db" 1 allOkEnv).err = none ∧
    FsOp.renameFile (tmpFilePath "db") (revFilePath "db" 1) ∈
      (write { rev := 1, root := List.replicate MAX_TABLES NO_ROOT,
               new_root := List.replicate MAX_TABLES NO_ROOT,
               uuid := List.replicate 16 0 } "db" 1 allOkEnv).trace ∧
    revFilePath "db" 1 = "db/v00000001" := by
  refine ⟨rfl, ?_, by decide⟩
  simp [write, allOkEnv, tmpFilePath, revFilePath]

/-- C3 (amended). For every new revision strictly below the current one,
`write` fails with the generic invariant error before any file operation
(empty trace, so in particular the canonical file for the new revision is
not created) and leaves the state unchanged. -/
theorem write_lower_revision_rejected (st : BrassState) (db_dir : String)
    (r2 : Nat) (env : WriteEnv) (h : r2 < st.rev) :
    (write st db_dir r2 env).err =
      some (.databaseError ("New revision " ++ toString r2 ++
        " < old revision " ++ toString st.rev) 0) ∧
    (write st db_dir r2 env).trace = [] ∧
    (write st db_dir r2 env).state = st := by
  simp [write, h]

/-- Witness for C3 (amended): rejecting `write(dir, 0)` at current
revision 1. -/
theorem write_lower_revision_rejected_witness :
    (write { rev := 1, root := List.replicate MAX_TABLES NO_ROOT,
             new_root := List.replicate MAX_TABLES NO_ROOT,
             uuid := List.replicate 16 0 } "db" 0 allOkEnv).err =
      some (.databaseError "New revision 0 < old revision 1" 0) ∧
    (write { rev := 1, root := List.replicate MAX_TABLES NO_ROOT,
             new_root := List.replicate MAX_TABLES NO_ROOT,
             uuid := List.replicate 16 0 } "db" 0 allOkEnv).trace = [] := by
  have h := write_lower_revision_rejected
    { rev := 1, root := List.replicate MAX_TABLES NO_ROOT,
      new_root := List.replicate MAX_TABLES NO_ROOT,
      uuid := List.replicate 16 0 } "db" 0 allOkEnv (by decide)
  exact ⟨h.1, h.2.1⟩

/-- C4: the staging path `write` actually uses.  With `db_dir = "db"` the
temp file is `dbv.tmp` — a sibling of the database directory, not
`db/v.tmp` inside it: the code appends `"v.tmp"` to the directory path
without the `"/"` separator it inserts for the canonical name two lines
below, so the rename publishes `db/v00000001` from outside the
directory. -/
theorem tmp_file_beside_directory :
    tmpFilePath "db" = "dbv.tmp" ∧
    tmpFilePath "db" ≠ "db" ++ "/" ++ "v.tmp" ∧
    revFilePath "db" 1 = "db" ++ "/" ++ "v00000001" ∧
    (write initialState "db" 1 allOkEnv).trace.head? =
      some (.openTrunc "dbv.tmp") := by
  refine ⟨rfl, by decide, by decide, ?_⟩
  simp [write, allOkEnv, initialState, tmpFilePath]

/-- Counterexample to C5 as stated: when the data write fails, the code
closes the fd and rethrows (`catch (...) { close(fd); throw; }`) without
unlinking, so the temporary file it just created survives the failing
`write`. -/
theorem write_failure_leaves_tmp_file :
    (write initialState "db" 1 { allOkEnv with writeOk := false }).err.isSome
      = true ∧
    FsOp.openTrunc (tmpFilePath "db") ∈
      (write initialState "db" 1 { allOkEnv with writeOk := false }).trace ∧
    ((write initialState "db" 1 { allOkEnv with writeOk := false }).trace.all
      fun op => match op with | .unlinkFile _ => false | _ => true) = true := by
  refine ⟨rfl, ?_, ?_⟩ <;>
    simp [write, allOkEnv, initialState, tmpFilePath]

/-- C5 (amended). On a sync, close, or rename failure the temporary file is
unlinked before the error propagates; on a data-write failure the fd is
closed but no unlink is attempted. -/
theorem write_failure_unlinks_tmp (st : BrassState) (db_dir : String)
    (r : Nat) (env : WriteEnv) (hr : ¬ r < st.rev)
    (hopen : env.openOk = true) (hwrite : env.writeOk = true)
    (hfail : env.syncOk = false ∨ env.closeOk = false ∨ env.renameOk = false) :
    (write st db_dir r env).err.isSome = true ∧
    FsOp.unlinkFile (tmpFilePath db_dir) ∈ (write st db_dir r env).trace := by
  rcases hfail with hf | hf | hf
  · constructor <;> simp [write, hr, hopen, hwrite, hf]
  · by_cases hsync : env.syncOk = true
    · constructor <;> simp [write, hr, hopen, hwrite, hsync, hf]
    · have hsync' : env.syncOk = false := by
        cases h : env.syncOk
        · rfl
        · exact absurd h hsync
      constructor <;> simp [write, hr, hopen, hwrite, hsync']
  · by_cases hsync : env.syncOk = true
    · by_cases hclose : env.closeOk = true
      · constructor <;> simp [write, hr, hopen, hwrite, hsync, hclose, hf]
      · have hclose' : env.closeOk = false := by
          cases h : env.closeOk
          · rfl
          · exact absurd h hclose
        constructor <;> simp [write, hr, hopen, hwrite, hsync, hclose']
    · have hsync' : env.syncOk = false := by
        cases h : env.syncOk
        · rfl
        · exact absurd h hsync
      constructor <;> simp [write, hr, hopen, hwrite, hsync']

/-- Witness for C5 (amended): a failing sync at revision 1 unlinks
`dbv.tmp`. -/
theorem write_failure_unlinks_tmp_witness :
    (write initialState "db" 1 { allOkEnv with syncOk := false }).err.isSome
      = true ∧
    FsOp.unlinkFile (tmpFilePath "db") ∈
      (write initialState "db" 1 { allOkEnv with syncOk := false }).trace :=
  write_failure_unlinks_tmp initialState "db" 1
    { allOkEnv with syncOk := false } (by decide) rfl rfl (Or.inl rfl)

/-- C10. Write atomicity of the in-memory state: on every failing execution
of `write` (rejected revision or any I/O failure) the state — current
revision, committed roots, staged roots, UUID — is left entirely
unchanged; only on full success does the current revision become
`new_rev` and the committed roots become the staged roots (staged roots
and UUID untouched even then). -/
theorem write_state_atomicity (st : BrassState) (db_dir : String) (r : Nat)
    (env : WriteEnv) :
    ((write st db_dir r env).err.isSome → (write st db_dir r env).state = st) ∧
    ((write st db_dir r env).err = none →
      (write st db_dir r env).state =
        { st with rev := r, root := st.new_root }) := by
  rw [write]
  split
  · simp
  · split
    · simp
    · split
      · simp
      · split
        · simp
        · split
          · simp
          · split <;> simp

/-- Witness for C10: at current revision 0, a failing sync leaves the
state unchanged, and a fully successful `write(dir, 1)` commits revision 1
and the staged roots. -/
theorem write_state_atomicity_witness :
    (write initialState "db" 1 { allOkEnv with syncOk := false }).state =
      initialState ∧
    (write initialState "db" 1 allOkEnv).state =
      { initialState with rev := 1, root := initialState.new_root } :=
  ⟨(write_state_atomicity initialState "db" 1
      { allOkEnv with syncOk := false }).1 rfl,
    (write_state_atomicity initialState "db" 1 allOkEnv).2 rfl⟩

/-- The version → `YYYYMMDD` date decoding is injective: distinct version
numbers always decode to distinct calendar dates. -/
theorem versionToDateNum_inj {v w : Nat}
    (h : versionToDateNum v = versionToDateNum w) : v = w := by
  simp only [versionToDateNum, VERSION_TO_YEAR, VERSION_TO_MONTH,
    VERSION_TO_DAY] at h
  omega

/-- C6. Version mismatch: a file whose first 14 bytes equal the magic but
whose 16-bit big-endian version field differs from the compiled-in
`BRASS_FORMAT_VERSION` fails with `VersionError` carrying both versions
decoded to calendar dates in `YYYYMMDD` form (via
`year = v/31/12 + 2010`, `month = v/31 % 12 + 1`, `day = v % 31 + 1`),
and the two decoded dates differ. -/
theorem read_version_mismatch (contents : List Nat)
    (hlen : ¬ (contents.take 256).length < 32)
    (hmagic : (contents.take 256).take 14 = MAGIC_BYTES)
    (hver : (contents.take 256).getD 14 0 * 256 + (contents.take 256).getD 15 0
      ≠ BRASS_FORMAT_VERSION) :
    readVersionFile contents =
      .error (.versionError
        (versionToDateNum ((contents.take 256).getD 14 0 * 256 +
          (contents.take 256).getD 15 0))
        (versionToDateNum BRASS_FORMAT_VERSION)) ∧
    versionToDateNum ((contents.take 256).getD 14 0 * 256 +
        (contents.take 256).getD 15 0) ≠
      versionToDateNum BRASS_FORMAT_VERSION := by
  constructor
  · rw [readVersionFile]
    simp only [if_neg hlen, hmagic]
    rw [if_neg (by simp), if_pos hver]
  · intro hc
    exact hver (versionToDateNum_inj hc)

/-- Witness for C6: a file with correct magic and version 54
(= 2010-02-24) is rejected against the expected version 53 (= 2010-02-23),
the two formatted dates being 20100224 and 20100223. -/
theorem read_version_mismatch_witness :
    readVersionFile (MAGIC_BYTES ++ [0, 54] ++ List.replicate 16 0) =
      .error (.versionError 20100224 20100223) ∧
    versionToDateNum 54 = 20100224 ∧ versionToDateNum 53 = 20100223 := by
  have h := read_version_mismatch (MAGIC_BYTES ++ [0, 54] ++ List.replicate 16 0)
    (by decide) (by decide) (by decide)
  refine ⟨?_, by decide, by decide⟩
  rw [h.1,
    (by decide :
      versionToDateNum ((List.take 256 (MAGIC_BYTES ++ [0, 54] ++
        List.replicate 16 0)).getD 14 0 * 256 +
        (List.take 256 (MAGIC_BYTES ++ [0, 54] ++
          List.replicate 16 0)).getD 15 0) = 20100224),
    (by decide : versionToDateNum BRASS_FORMAT_VERSION = 20100223)]

/-- C7. Malformed-content rejection: `read` fails with `CorruptError` when
the file is shorter than the fixed 32-byte header, when the first 14 bytes
of the read prefix differ from the magic signature, and when bytes remain
in the read prefix after all `MAX_TABLES` table roots have been decoded
("junk at end"). -/
theorem read_corrupt_rejection (contents : List Nat) :
    (contents.length < 32 →
      readVersionFile contents =
        .error (.corruptError "Rev file shorter than fixed header")) ∧
    (¬ (contents.take 256).length < 32 →
      (contents.take 256).take 14 ≠ MAGIC_BYTES →
      readVersionFile contents =
        .error (.corruptError "Rev file magic incorrect")) ∧
    (∀ u payload rs leftover, u.length = 16 → payload.length ≤ 224 →
      contents = MAGIC_BYTES ++ [0, 53] ++ u ++ payload →
      decodeRoots MAX_TABLES payload = some (rs, leftover) → leftover ≠ [] →
      readVersionFile contents =
        .error (.corruptError "Rev file has junk at end")) := by
  refine ⟨fun hshort => ?_, fun hlen hmagic => ?_, ?_⟩
  · rw [readVersionFile]
    rw [if_pos (by simp [List.length_take]; omega)]
  · rw [readVersionFile]
    rw [if_neg hlen, if_pos hmagic]
  · rintro u payload rs leftover hu hp rfl hdec hleft
    rw [readVersionFile_wellformed u payload hu hp, hdec]
    simp [hleft]

/-- Witness for C7: a 1-byte file, a 32-byte file of zeros (wrong magic),
and a well-formed header with all six roots present followed by one extra
byte are each rejected as corrupt. -/
theorem read_corrupt_rejection_witness :
    readVersionFile [0] =
      .error (.corruptError "Rev file shorter than fixed header") ∧
    readVersionFile (List.replicate 32 0) =
      .error (.corruptError "Rev file magic incorrect") ∧
    readVersionFile (MAGIC_BYTES ++ [0, 53] ++ List.replicate 16 0 ++
        [1, 2, 3, 4, 5, 6, 7]) =
      .error (.corruptError "Rev file has junk at end") := by
  refine ⟨(read_corrupt_rejection [0]).1 (by decide),
    (read_corrupt_rejection (List.replicate 32 0)).2.1 (by decide) (by decide),
    (read_corrupt_rejection _).2.2 (List.replicate 16 0) [1, 2, 3, 4, 5, 6, 7]
      [1, 2, 3, 4, 5, 6] [7] (by decide) (by decide) rfl (by decide) (by decide)⟩

/-- C9. Creation: `create` on a freshly constructed object installs the
generated UUID, sets every staged root to `NO_ROOT`, writes the initial
revision file `v00000000` whose content is exactly the 32-byte header
(magic, version, UUID — every table-root entry omitted since every staged
root is `NO_ROOT`), and ends with current revision 0 and all committed
roots `NO_ROOT`. -/
theorem create_initial (freshUuid : List Nat) (db_dir : String)
    (hu : freshUuid.length = 16) :
    (create initialState freshUuid db_dir allOkEnv).err = none ∧
    (create initialState freshUuid db_dir allOkEnv).state =
      { rev := 0, root := List.replicate MAX_TABLES NO_ROOT,
        new_root := List.replicate MAX_TABLES NO_ROOT, uuid := freshUuid } ∧
    (create initialState freshUuid db_dir allOkEnv).trace =
      [.openTrunc (tmpFilePath db_dir),
        .writeData (MAGIC_BYTES ++ [0, 53] ++ freshUuid),
        .syncFile, .closeFile,
        .renameFile (tmpFilePath db_dir) (revFilePath db_dir 0)] ∧
    (MAGIC_BYTES ++ [0, 53] ++ freshUuid).length = 32 ∧
    hex8 0 = "00000000" := by
  have henc : encodeVersionFile freshUuid (List.replicate MAX_TABLES NO_ROOT) =
      MAGIC_BYTES ++ [0, 53] ++ freshUuid := by
    rw [encodeVersionFile,
      (by decide : BRASS_FORMAT_VERSION / 256 % 256 = 0),
      (by decide : BRASS_FORMAT_VERSION % 256 = 53),
      (by decide : trimRoots (List.replicate MAX_TABLES NO_ROOT) = [])]
    simp [packList]
  have hmlen : MAGIC_BYTES.length = 14 := by decide
  refine ⟨?_, ?_, ?_, by simp [hmlen, hu], by decide⟩ <;>
    simp [create, write, allOkEnv, initialState, henc]

/-- Witness for C9: creation with the concrete UUID `7,7,...,7` succeeds
and stages exactly the 32-byte header write. -/
theorem create_initial_witness :
    (create initialState (List.replicate 16 7) "db" allOkEnv).err = none ∧
    (create initialState (List.replicate 16 7) "db" allOkEnv).trace =
      [.openTrunc (tmpFilePath "db"),
        .writeData (MAGIC_BYTES ++ [0, 53] ++ List.replicate 16 7),
        .syncFile, .closeFile,
        .renameFile (tmpFilePath "db") (revFilePath "db" 0)] := by
  have h := create_initial (List.replicate 16 7) "db" (by decide)
  exact ⟨h.1, h.2.2.1⟩

end Brass
